import Mathlib

/-!
Verification of the tag-specification parser (`src/tag.ts`).

The development shallowly embeds the two exported operations of the source,
`Parse` (line parser) and `Transform` (specification-set builder, called
`BuildSet` by the spec), together with the string primitives they use from
the JavaScript runtime and the `csv-parse` tokenizer the source calls.
-/

/-! ## JavaScript string primitives -/

/-- Whitespace predicate used by the model of `String.prototype.trim`. -/
def isJsWhitespace (c : Char) : Bool := c.isWhitespace

/-- Trim whitespace from both ends of a character list. -/
def trimChars (cs : List Char) : List Char :=
  ((cs.dropWhile isJsWhitespace).reverse.dropWhile isJsWhitespace).reverse

/-- Model of JavaScript `str.trim()`. -/
def jsTrim (s : String) : String := ⟨trimChars s.toList⟩

/-- Model of JavaScript `str.toLowerCase()` (ASCII range). -/
def jsToLower (s : String) : String := ⟨s.toList.map Char.toLower⟩

/-- Split a character list at every occurrence of the character `c`; the
result is always nonempty. -/
def splitOnChar (c : Char) : List Char → List (List Char)
  | [] => [[]]
  | x :: xs =>
    let r := splitOnChar c xs
    if x = c then [] :: r
    else
      match r with
      | [] => [[x]]
      | g :: gs => (x :: g) :: gs

/-- Model of JavaScript `field.split('=', 2)`: the list of `=`-separated
components truncated to the first two (the remainder after a second `=` is
discarded by the `limit` argument, not appended to the second component). -/
def jsSplitEq2 (s : String) : List String :=
  ((splitOnChar '=' s.toList).map (fun cs => (⟨cs⟩ : String))).take 2

/-- Numeric value of a list of decimal digit characters. -/
def natOfDigits (cs : List Char) : Nat :=
  cs.foldl (fun a c => a * 10 + (c.toNat - 48)) 0

/-- Unsigned decimal literal: digits with an optional fractional part
(`"12"`, `"12."`, `"12.5"`, `".5"`); `none` when the shape is not numeric. -/
def jsUnsignedNum? (cs : List Char) : Option Rat :=
  let ip := cs.takeWhile Char.isDigit
  let rest := cs.dropWhile Char.isDigit
  match rest with
  | [] => if ip.isEmpty then none else some (natOfDigits ip)
  | '.' :: frac =>
    if frac.all Char.isDigit then
      if ip.isEmpty && frac.isEmpty then none
      else some ((natOfDigits ip : Rat) + (natOfDigits frac : Rat) / (10 : Rat) ^ frac.length)
    else none
  | _ => none

/-- Model of JavaScript `Number(str)` on strings, restricted to the decimal
literals this program manipulates: optional surrounding whitespace, optional
sign, decimal digits with an optional fractional part; a blank string
converts to `0`; `none` stands for NaN. -/
def jsNumber? (s : String) : Option Rat :=
  match trimChars s.toList with
  | [] => some 0
  | '+' :: cs => jsUnsignedNum? cs
  | '-' :: cs => (jsUnsignedNum? cs).map (fun q => -q)
  | cs => jsUnsignedNum? cs

/-! ## The data model of `src/tag.ts` -/

/-- The `Type` enumeration of the source (the name `Type` itself is reserved
in Lean). -/
inductive TagType
  | Schedule
  | Semver
  | Match
  | Edge
  | Ref
  | Raw
  | Sha
deriving DecidableEq, Repr

/-- The string value of each enumeration member. -/
def TagType.str : TagType → String
  | .Schedule => "schedule"
  | .Semver => "semver"
  | .Match => "match"
  | .Edge => "edge"
  | .Ref => "ref"
  | .Raw => "raw"
  | .Sha => "sha"

/-- `Object.values(Type).includes(value)` together with the assignment
`tag.type = value`: the member whose string value equals `s` (case
sensitive), if any. -/
def TagType.ofString? (s : String) : Option TagType :=
  if s = "schedule" then some .Schedule
  else if s = "semver" then some .Semver
  else if s = "match" then some .Match
  else if s = "edge" then some .Edge
  else if s = "ref" then some .Ref
  else if s = "raw" then some .Raw
  else if s = "sha" then some .Sha
  else none

/-- JavaScript `array.includes(v)` on string arrays. -/
def includes (l : List String) (v : String) : Bool := l.any (fun x => x = v)

/-- The string values of the `RefEvent` enumeration. -/
def RefEventValues : List String := ["branch", "tag", "pr"]

/-- The string values of the `ShaFormat` enumeration. -/
def ShaFormatValues : List String := ["short", "long"]

/-- The `Tag` class of the source: an optional type and an attribute record.
The record is modelled as an insertion-ordered association list with the
JavaScript object update rule: overwriting an existing key keeps its original
position, a new key is appended. -/
structure Tag where
  type : Option TagType
  attrs : List (String × String)
deriving DecidableEq, Repr

/-- JavaScript object write `m[k] = v`: overwriting an existing key keeps its
original position, a new key is appended at the end. -/
def setAttr : List (String × String) → String → String → List (String × String)
  | [], k, v => [(k, v)]
  | p :: ps, k, v => if p.1 = k then (k, v) :: ps else p :: setAttr ps k v

/-- JavaScript object read `m[k]` (`none` = `undefined`). -/
def getAttr : List (String × String) → String → Option String
  | [], _ => none
  | p :: ps, k => if p.1 = k then some p.2 else getAttr ps k

/-- JavaScript `m.hasOwnProperty(k)`. -/
def hasAttr (m : List (String × String)) (k : String) : Bool :=
  (getAttr m k).isSome

/-- The `DefaultPriorities` table of the source. -/
def DefaultPriorities : TagType → String
  | .Schedule => "1000"
  | .Semver => "900"
  | .Match => "800"
  | .Edge => "700"
  | .Ref => "600"
  | .Raw => "200"
  | .Sha => "100"

/-- Outcome of a failing parse: either a descriptive `Error(message)` thrown
by the source, or the raw runtime `TypeError` raised when the CSV tokenizer
yields no record and the code iterates over `undefined`. -/
inductive ParseErr
  | runtime
  | msg (s : String)
deriving DecidableEq, Repr

instance {ε α : Type} [DecidableEq ε] [DecidableEq α] : DecidableEq (Except ε α)
  | Except.error e, Except.error f =>
    decidable_of_iff (e = f) ⟨fun h => by rw [h], fun h => by injection h⟩
  | Except.error _, Except.ok _ => isFalse (fun h => Except.noConfusion h)
  | Except.ok _, Except.error _ => isFalse (fun h => Except.noConfusion h)
  | Except.ok a, Except.ok b =>
    decidable_of_iff (a = b) ⟨fun h => by rw [h], fun h => by injection h⟩

/-! ## The `csv-parse` tokenizer -/

/-- Model of `csv-parse/lib/sync` with `relaxColumnCount` and
`skipLinesWithEmptyValues`, restricted to inputs free of quote, escape and
carriage-return characters (every input in this development is such):
records are the newline-separated lines, fields the comma-separated segments
of a line, and a record all of whose fields trim to the empty string is
skipped (`skipLinesWithEmptyValues` drops a record only when every one of
its columns is blank). The empty input yields no record. -/
def csvparse (s : String) : List (List String) :=
  ((splitOnChar '\n' s.toList).map
      (fun ln => (splitOnChar ',' ln).map (fun cs => (⟨cs⟩ : String)))).filter
    (fun fields => fields.any (fun f => !(trimChars f.toList).isEmpty))

/-! ## `Parse` (src/tag.ts lines 86–207) -/

/-- One iteration of the token loop of `Parse` (src/tag.ts lines 93–113):
`field.split('=', 2)`; a token without `=` (single component) stores the
positional `value`; otherwise the lower-cased trimmed key either sets the tag
type (validated against the enumeration) or stores the trimmed value under
the key. The empty-list arm is unreachable: a JavaScript split always has at
least one component. -/
def processField (tag : Tag) (field : String) : Except ParseErr Tag :=
  match jsSplitEq2 field with
  | [p0] =>
    Except.ok { tag with attrs := setAttr tag.attrs "value" (jsTrim p0) }
  | p0 :: p1 :: _ =>
    if jsToLower (jsTrim p0) = "type" then
      match TagType.ofString? (jsTrim p1) with
      | some t => Except.ok { tag with type := some t }
      | none => Except.error (ParseErr.msg ("Unknown tag type attribute: " ++ jsTrim p1))
    else
      Except.ok { tag with attrs := setAttr tag.attrs (jsToLower (jsTrim p0)) (jsTrim p1) }
  | [] => Except.ok tag

/-- The token loop of `Parse`, folding `processField` over the fields of the
first CSV record; the first thrown error aborts the loop. -/
def parseFields : Tag → List String → Except ParseErr Tag
  | tag, [] => Except.ok tag
  | tag, f :: fs =>
    match processField tag f with
    | Except.error e => Except.error e
    | Except.ok tag2 => parseFields tag2 fs

/-- The recurring defaulting idiom of the source:
`if (!tag.attrs.hasOwnProperty(k)) { tag.attrs[k] = v }`. -/
def defSet (m : List (String × String)) (k v : String) : List (String × String) :=
  if hasAttr m k then m else setAttr m k v

/-- The kind-specific defaulting and validation switch of `Parse`
(src/tag.ts lines 120–195), acting on the attribute record; `s` is the
original input line used in error messages. -/
def kindRules (s : String) (ty : TagType) (attrs : List (String × String)) :
    Except ParseErr (List (String × String)) :=
  match ty with
  | TagType.Schedule =>
    Except.ok (defSet attrs "pattern" "nightly")
  | TagType.Semver =>
    if !hasAttr attrs "pattern" then
      Except.error (ParseErr.msg ("Missing pattern attribute for " ++ s))
    else Except.ok (defSet attrs "value" "")
  | TagType.Match =>
    if !hasAttr attrs "pattern" then
      Except.error (ParseErr.msg ("Missing pattern attribute for " ++ s))
    else
      if (jsNumber? ((getAttr (defSet attrs "group" "0") "group").getD "")).isNone then
        Except.error (ParseErr.msg ("Invalid match group for " ++ s))
      else Except.ok (defSet (defSet attrs "group" "0") "value" "")
  | TagType.Edge =>
    Except.ok (defSet attrs "branch" "")
  | TagType.Ref =>
    if !hasAttr attrs "event" then
      Except.error (ParseErr.msg ("Missing event attribute for " ++ s))
    else if !(includes RefEventValues ((getAttr attrs "event").getD "")) then
      Except.error (ParseErr.msg ("Invalid event for " ++ s))
    else
      Except.ok
        (if (getAttr attrs "event").getD "" = "pr" && !hasAttr attrs "prefix" then
          setAttr attrs "prefix" "pr-"
        else attrs)
  | TagType.Raw =>
    if !hasAttr attrs "value" then
      Except.error (ParseErr.msg ("Missing value attribute for " ++ s))
    else Except.ok attrs
  | TagType.Sha =>
    if !(includes ShaFormatValues
        ((getAttr (defSet (defSet attrs "prefix" "sha-") "format" "short") "format").getD "")) then
      Except.error (ParseErr.msg ("Invalid format for " ++ s))
    else Except.ok (defSet (defSet attrs "prefix" "sha-") "format" "short")

/-- The universal defaults of `Parse` (src/tag.ts lines 197–202): `enable`
defaults to `"true"`, `priority` to the default-priority table entry for the
kind. -/
def universalDefaults (ty : TagType) (attrs : List (String × String)) :
    List (String × String) :=
  defSet (defSet attrs "enable" "true") "priority" (DefaultPriorities ty)

/-- The tail of `Parse` once the token loop has succeeded (src/tag.ts lines
120–207): the kind switch, the universal defaults and the final `enable`
validation. -/
def finishTag (s : String) (ty : TagType) (attrs0 : List (String × String)) :
    Except ParseErr Tag :=
  match kindRules s ty attrs0 with
  | Except.error e => Except.error e
  | Except.ok a1 =>
    if !(includes ["true", "false"] ((getAttr (universalDefaults ty a1) "enable").getD "")) then
      Except.error
        (ParseErr.msg
          ("Invalid value for enable attribute: " ++ (getAttr (universalDefaults ty a1) "enable").getD ""))
    else Except.ok { type := some ty, attrs := universalDefaults ty a1 }

/-- The `Parse` function of the source (src/tag.ts lines 86–207): tokenize,
fold the token loop, default the type to `raw`, then `finishTag`. -/
def Parse (s : String) : Except ParseErr Tag :=
  match csvparse s with
  | [] => Except.error ParseErr.runtime
  | fields :: _ =>
    match parseFields { type := none, attrs := [] } fields with
    | Except.error e => Except.error e
    | Except.ok t0 => finishTag s (t0.type.getD TagType.Raw) t0.attrs

/-! ## `Transform` (src/tag.ts lines 52–84) -/

/-- `Number(tag.attrs['priority'])` as an optional rational (`none` = NaN; an
absent attribute reads as `undefined`, whose numeric conversion is NaN). -/
def tagPrio (t : Tag) : Option Rat :=
  match getAttr t.attrs "priority" with
  | none => none
  | some v => jsNumber? v

/-- JavaScript `<` on two possibly-NaN numbers: false whenever either side is
NaN. -/
def jsLtOpt (a b : Option Rat) : Bool :=
  match a, b with
  | some x, some y => decide (x < y)
  | _, _ => false

/-- The comparator passed to `tags.sort` (src/tag.ts lines 67–75). -/
def tagCmp (t1 t2 : Tag) : Int :=
  if jsLtOpt (tagPrio t1) (tagPrio t2) then 1
  else if jsLtOpt (tagPrio t2) (tagPrio t1) then -1
  else 0

/-- Insert `x` after every earlier element `y` with `tagCmp y x ≤ 0`. -/
def sortInsert (x : Tag) : List Tag → List Tag
  | [] => [x]
  | y :: ys => if tagCmp y x ≤ 0 then y :: sortInsert x ys else x :: y :: ys

/-- Model of `Array.prototype.sort` with the comparator `tagCmp`: a stable
sort that keeps `a` before `b` whenever `tagCmp a b ≤ 0` (ECMAScript requires
`sort` to be stable, and for a consistent comparator every stable sort yields
the same sequence). -/
def jsSort (l : List Tag) : List Tag := l.foldl (fun acc x => sortInsert x acc) []

/-- The loop of `Transform` pushing `Parse(input)` for each input; the first
thrown error aborts the whole loop with no partial result. -/
def parseAll : List String → Except ParseErr (List Tag)
  | [] => Except.ok []
  | s :: rest =>
    match Parse s with
    | Except.error e => Except.error e
    | Except.ok t =>
      match parseAll rest with
      | Except.error e => Except.error e
      | Except.ok ts => Except.ok (t :: ts)

/-- The built-in default input set substituted when `inputs` is empty
(src/tag.ts lines 56–61). -/
def DefaultInputs : List String :=
  ["type=schedule", "type=ref,event=branch", "type=ref,event=tag", "type=ref,event=pr"]

/-- The `Transform` function of the source (src/tag.ts lines 52–84): default
the input list, parse every line, sort by the priority comparator. The
diagnostic logging of the sorted set has no effect on the returned value and
is not modelled. -/
def Transform (inputs : List String) : Except ParseErr (List Tag) :=
  match parseAll (if inputs.length = 0 then DefaultInputs else inputs) with
  | Except.error e => Except.error e
  | Except.ok tags => Except.ok (jsSort tags)

/-- The specification's name for `Transform`. -/
def BuildSet : List String → Except ParseErr (List Tag) := Transform

/-! ## Attribute record lemmas -/

theorem getAttr_setAttr_self (m : List (String × String)) (k v : String) :
    getAttr (setAttr m k v) k = some v := by
  induction m with
  | nil => simp [setAttr, getAttr]
  | cons p ps ih =>
    by_cases h : p.1 = k
    · simp [setAttr, getAttr, h]
    · simp [setAttr, getAttr, h, ih]

theorem getAttr_setAttr_ne (m : List (String × String)) (k k' v : String) (h : k' ≠ k) :
    getAttr (setAttr m k v) k' = getAttr m k' := by
  induction m with
  | nil => simp [setAttr, getAttr, Ne.symm h]
  | cons p ps ih =>
    by_cases hp : p.1 = k
    · simp [setAttr, getAttr, hp, Ne.symm h]
    · simp [setAttr, getAttr, hp, ih]

theorem hasAttr_eq_isSome (m : List (String × String)) (k : String) :
    hasAttr m k = (getAttr m k).isSome := rfl

/-! ## Characterizing the token loop by the keys it writes -/

/-- The value (if any) that the token `field` writes to the attribute key `k`
in one iteration of the token loop. -/
def writeOf (field k : String) : Option String :=
  match jsSplitEq2 field with
  | [p0] => if k = "value" then some (jsTrim p0) else none
  | p0 :: p1 :: _ =>
    if jsToLower (jsTrim p0) = "type" then none
    else if jsToLower (jsTrim p0) = k then some (jsTrim p1) else none
  | [] => none

/-- Whether the token `field` is a `type=` token (a token with `=` whose
lower-cased trimmed key is `type`). -/
def isTypeToken (field : String) : Bool :=
  match jsSplitEq2 field with
  | p0 :: _ :: _ => jsToLower (jsTrim p0) = "type"
  | _ => false

theorem processField_getAttr (t t' : Tag) (f k : String)
    (h : processField t f = Except.ok t') :
    getAttr t'.attrs k = (writeOf f k).or (getAttr t.attrs k) := by
  unfold processField at h
  unfold writeOf
  cases hsp : jsSplitEq2 f with
  | nil =>
    rw [hsp] at h
    simp only [Except.ok.injEq] at h
    subst h
    simp
  | cons p0 rest =>
    cases rest with
    | nil =>
      rw [hsp] at h
      simp only [Except.ok.injEq] at h
      subst h
      by_cases hk : k = "value"
      · simp [hk, getAttr_setAttr_self]
      · simp [hk, getAttr_setAttr_ne _ _ _ _ hk]
    | cons p1 rest2 =>
      rw [hsp] at h
      simp only at h
      by_cases h2 : jsToLower (jsTrim p0) = "type"
      · rw [if_pos h2] at h
        simp only [h2, if_true]
        cases htt : TagType.ofString? (jsTrim p1) with
        | none => rw [htt] at h; exact absurd h (by simp)
        | some ty =>
          rw [htt] at h
          simp only [Except.ok.injEq] at h
          subst h
          simp
      · rw [if_neg h2] at h
        simp only [Except.ok.injEq] at h
        subst h
        simp only [h2, if_false]
        by_cases hk : jsToLower (jsTrim p0) = k
        · simp [hk, getAttr_setAttr_self]
        · simp [hk, getAttr_setAttr_ne _ _ _ _ (Ne.symm hk)]

theorem processField_ok_of_not_type (t : Tag) (f : String) (hnt : isTypeToken f = false) :
    ∃ t2, processField t f = Except.ok t2 ∧ t2.type = t.type := by
  unfold isTypeToken at hnt
  cases hsp : jsSplitEq2 f with
  | nil => exact ⟨t, by unfold processField; rw [hsp], rfl⟩
  | cons p0 rest =>
    cases rest with
    | nil =>
      exact ⟨{ t with attrs := setAttr t.attrs "value" (jsTrim p0) },
        by unfold processField; rw [hsp], rfl⟩
    | cons p1 rest2 =>
      rw [hsp] at hnt
      simp only [decide_eq_false_iff_not] at hnt
      exact ⟨{ t with attrs := setAttr t.attrs (jsToLower (jsTrim p0)) (jsTrim p1) },
        by unfold processField; rw [hsp]; simp [hnt], rfl⟩

/-- The value stored under key `k` by the whole token list: the last write
wins. -/
def lastWrite (fields : List String) (k : String) : Option String :=
  (fields.filterMap (fun f => writeOf f k)).getLast?

theorem getLast?_isSome_of_ne_nil {α : Type} (b : α) (bs : List α) :
    ∃ c, (b :: bs).getLast? = some c := by
  induction bs generalizing b with
  | nil => exact ⟨b, rfl⟩
  | cons x xs ih => exact (ih x).imp (fun c hc => by rw [List.getLast?_cons_cons]; exact hc)

theorem getLast?_cons_or {α : Type} (a : α) (l : List α) :
    (a :: l).getLast? = l.getLast?.or (some a) := by
  cases l with
  | nil => rfl
  | cons b bs =>
    obtain ⟨c, hc⟩ := getLast?_isSome_of_ne_nil b bs
    rw [List.getLast?_cons_cons, hc]
    rfl

theorem lastWrite_cons (f : String) (fs : List String) (k : String) :
    lastWrite (f :: fs) k = (lastWrite fs k).or (writeOf f k) := by
  unfold lastWrite
  cases hw : writeOf f k with
  | none => simp [List.filterMap_cons, hw]
  | some v => simp [List.filterMap_cons, hw, getLast?_cons_or]

theorem parseFields_getAttr (fields : List String) :
    ∀ t t' k, parseFields t fields = Except.ok t' →
      getAttr t'.attrs k = (lastWrite fields k).or (getAttr t.attrs k) := by
  induction fields with
  | nil =>
    intro t t' k h
    simp only [parseFields, Except.ok.injEq] at h
    subst h
    simp [lastWrite]
  | cons f fs ih =>
    intro t t' k h
    unfold parseFields at h
    cases hp : processField t f with
    | error e => rw [hp] at h; exact absurd h (by simp)
    | ok t2 =>
      rw [hp] at h
      rw [lastWrite_cons, ih t2 t' k h, processField_getAttr t t2 f k hp, Option.or_assoc]

theorem parseFields_ok_of_no_type (fields : List String) :
    ∀ t, (∀ f ∈ fields, isTypeToken f = false) →
      ∃ t', parseFields t fields = Except.ok t' ∧ t'.type = t.type := by
  induction fields with
  | nil => exact fun t _ => ⟨t, rfl, rfl⟩
  | cons f fs ih =>
    intro t hnt
    obtain ⟨t2, hp, hty⟩ := processField_ok_of_not_type t f (hnt f (by simp))
    obtain ⟨t', hps, hty'⟩ := ih t2 (fun g hg => hnt g (by simp [hg]))
    exact ⟨t', by unfold parseFields; rw [hp]; exact hps, hty'.trans hty⟩

/-! ## Preservation lemmas for the defaulting steps -/

theorem getAttr_setAttr_of_present (m : List (String × String)) (k k2 v w : String)
    (hw : getAttr m k = some w) (hnp : hasAttr m k2 = false) :
    getAttr (setAttr m k2 v) k = some w := by
  have hk : k ≠ k2 := by
    intro hc
    subst hc
    rw [hasAttr_eq_isSome, hw] at hnp
    simp at hnp
  rw [getAttr_setAttr_ne _ _ _ _ hk, hw]

theorem getAttr_defSet_of_present (m : List (String × String)) (k2 v : String) {k w : String}
    (hw : getAttr m k = some w) :
    getAttr (defSet m k2 v) k = some w := by
  unfold defSet
  by_cases hh : hasAttr m k2 = true
  · rw [if_pos hh, hw]
  · rw [if_neg hh]
    exact getAttr_setAttr_of_present m k k2 v w hw (by simpa using hh)

theorem getAttr_defSet_ne (m : List (String × String)) (k2 v : String) {k : String}
    (h : k ≠ k2) :
    getAttr (defSet m k2 v) k = getAttr m k := by
  unfold defSet
  by_cases hh : hasAttr m k2 = true
  · rw [if_pos hh]
  · rw [if_neg hh, getAttr_setAttr_ne _ _ _ _ h]

theorem getAttr_defSet_absent (m : List (String × String)) (k v : String)
    (h : getAttr m k = none) :
    getAttr (defSet m k v) k = some v := by
  unfold defSet
  rw [if_neg (by rw [hasAttr_eq_isSome, h]; simp), getAttr_setAttr_self]

theorem getAttr_defSet_self (m : List (String × String)) (k v : String) :
    getAttr (defSet m k v) k = some ((getAttr m k).getD v) := by
  cases hg : getAttr m k with
  | none => rw [getAttr_defSet_absent m k v hg]; rfl
  | some w => rw [getAttr_defSet_of_present m k v hg]; rfl

theorem kindRules_getAttr_of_present (s : String) (ty : TagType)
    (attrs a1 : List (String × String)) (k w : String)
    (h : kindRules s ty attrs = Except.ok a1) (hw : getAttr attrs k = some w) :
    getAttr a1 k = some w := by
  cases ty
  case Schedule =>
    simp only [kindRules, Except.ok.injEq] at h
    subst h
    exact getAttr_defSet_of_present _ _ _ hw
  case Semver =>
    simp only [kindRules] at h
    split at h
    · exact Except.noConfusion h
    · injection h with h2
      subst h2
      exact getAttr_defSet_of_present _ _ _ hw
  case Match =>
    simp only [kindRules] at h
    split at h
    · exact Except.noConfusion h
    · split at h
      · exact Except.noConfusion h
      · injection h with h2
        subst h2
        exact getAttr_defSet_of_present _ _ _ (getAttr_defSet_of_present _ _ _ hw)
  case Edge =>
    simp only [kindRules, Except.ok.injEq] at h
    subst h
    exact getAttr_defSet_of_present _ _ _ hw
  case Ref =>
    simp only [kindRules] at h
    split at h
    · exact Except.noConfusion h
    · split at h
      · exact Except.noConfusion h
      · injection h with h2
        subst h2
        split
        · next hc =>
          rw [Bool.and_eq_true] at hc
          exact getAttr_setAttr_of_present _ _ _ _ _ hw (by simpa using hc.2)
        · exact hw
  case Raw =>
    simp only [kindRules] at h
    split at h
    · exact Except.noConfusion h
    · injection h with h2
      subst h2
      exact hw
  case Sha =>
    simp only [kindRules] at h
    split at h
    · exact Except.noConfusion h
    · injection h with h2
      subst h2
      exact getAttr_defSet_of_present _ _ _ (getAttr_defSet_of_present _ _ _ hw)

theorem kindRules_getAttr_untouched (s : String) (ty : TagType)
    (attrs a1 : List (String × String)) (k : String)
    (h : kindRules s ty attrs = Except.ok a1)
    (h1 : k ≠ "pattern") (h2 : k ≠ "value") (h3 : k ≠ "group")
    (h4 : k ≠ "branch") (h5 : k ≠ "prefix") (h6 : k ≠ "format") :
    getAttr a1 k = getAttr attrs k := by
  cases ty
  case Schedule =>
    simp only [kindRules, Except.ok.injEq] at h
    subst h
    exact getAttr_defSet_ne _ _ _ h1
  case Semver =>
    simp only [kindRules] at h
    split at h
    · exact Except.noConfusion h
    · injection h with hh
      subst hh
      exact getAttr_defSet_ne _ _ _ h2
  case Match =>
    simp only [kindRules] at h
    split at h
    · exact Except.noConfusion h
    · split at h
      · exact Except.noConfusion h
      · injection h with hh
        subst hh
        rw [getAttr_defSet_ne _ _ _ h2, getAttr_defSet_ne _ _ _ h3]
  case Edge =>
    simp only [kindRules, Except.ok.injEq] at h
    subst h
    exact getAttr_defSet_ne _ _ _ h4
  case Ref =>
    simp only [kindRules] at h
    split at h
    · exact Except.noConfusion h
    · split at h
      · exact Except.noConfusion h
      · injection h with hh
        subst hh
        split
        · exact getAttr_setAttr_ne _ _ _ _ h5
        · rfl
  case Raw =>
    simp only [kindRules] at h
    split at h
    · exact Except.noConfusion h
    · injection h with hh
      subst hh
      rfl
  case Sha =>
    simp only [kindRules] at h
    split at h
    · exact Except.noConfusion h
    · injection h with hh
      subst hh
      rw [getAttr_defSet_ne _ _ _ h6, getAttr_defSet_ne _ _ _ h5]

theorem universalDefaults_enable (ty : TagType) (m : List (String × String)) :
    getAttr (universalDefaults ty m) "enable" = some ((getAttr m "enable").getD "true") := by
  unfold universalDefaults
  rw [getAttr_defSet_ne _ _ _ (by decide), getAttr_defSet_self]

theorem universalDefaults_priority (ty : TagType) (m : List (String × String)) :
    getAttr (universalDefaults ty m) "priority" =
      some ((getAttr m "priority").getD (DefaultPriorities ty)) := by
  unfold universalDefaults
  rw [getAttr_defSet_self, getAttr_defSet_ne _ _ _ (by decide)]

theorem universalDefaults_getAttr_ne (ty : TagType) (m : List (String × String))
    {k : String} (h1 : k ≠ "enable") (h2 : k ≠ "priority") :
    getAttr (universalDefaults ty m) k = getAttr m k := by
  unfold universalDefaults
  rw [getAttr_defSet_ne _ _ _ h2, getAttr_defSet_ne _ _ _ h1]

theorem includes_tf (x : String) :
    includes ["true", "false"] x = true ↔ x = "true" ∨ x = "false" := by
  constructor
  · intro h
    simp only [includes, List.any_cons, List.any_nil, Bool.or_false, Bool.or_eq_true,
      decide_eq_true_eq] at h
    rcases h with h | h
    · exact Or.inl h.symm
    · exact Or.inr h.symm
  · intro h
    rcases h with h | h <;> simp [includes, h]

theorem finishTag_ok (s : String) (ty : TagType) (attrs0 a1 : List (String × String))
    (hk : kindRules s ty attrs0 = Except.ok a1)
    (he : (getAttr a1 "enable").getD "true" = "true" ∨ (getAttr a1 "enable").getD "true" = "false") :
    finishTag s ty attrs0 = Except.ok { type := some ty, attrs := universalDefaults ty a1 } := by
  have hx : (getAttr (universalDefaults ty a1) "enable").getD "" =
      (getAttr a1 "enable").getD "true" := by
    rw [universalDefaults_enable]
    rfl
  unfold finishTag
  rw [hk]
  dsimp only
  rw [if_neg (by rw [hx, (includes_tf _).2 he]; decide)]

theorem finishTag_eq_ok (s : String) (ty : TagType) (attrs0 : List (String × String)) (t : Tag)
    (h : finishTag s ty attrs0 = Except.ok t) :
    ∃ a1, kindRules s ty attrs0 = Except.ok a1 ∧
      t = { type := some ty, attrs := universalDefaults ty a1 } ∧
      ((getAttr a1 "enable").getD "true" = "true" ∨ (getAttr a1 "enable").getD "true" = "false") := by
  unfold finishTag at h
  cases hk : kindRules s ty attrs0 with
  | error e => rw [hk] at h; exact Except.noConfusion h
  | ok a1 =>
    rw [hk] at h
    dsimp only at h
    split at h
    · exact Except.noConfusion h
    · next hc =>
      injection h with hh
      refine ⟨a1, rfl, hh.symm, ?_⟩
      rw [universalDefaults_enable] at hc
      simp only [Option.getD_some, Bool.not_eq_true] at hc
      refine (includes_tf _).1 ?_
      revert hc
      cases includes ["true", "false"] ((getAttr a1 "enable").getD "true") <;> simp

/-! ## Parse-level structure lemmas -/

theorem includes_tf_false (v : String) (h1 : v ≠ "true") (h2 : v ≠ "false") :
    includes ["true", "false"] v = false := by
  simp [includes, Ne.symm h1, Ne.symm h2]

/-- Whether some token of the first CSV record of `s` writes the key `k`
(`false` also when the tokenizer yields no record at all). -/
def lineSupplies (s k : String) : Bool :=
  match csvparse s with
  | [] => false
  | fields :: _ => (lastWrite fields k).isSome

theorem parseFields_getAttr_init (fields : List String) (t0 : Tag) (k : String)
    (h : parseFields { type := none, attrs := [] } fields = Except.ok t0) :
    getAttr t0.attrs k = lastWrite fields k := by
  rw [parseFields_getAttr fields _ _ k h]
  cases lastWrite fields k <;> rfl

theorem Parse_eq_ok (s : String) (t : Tag) (h : Parse s = Except.ok t) :
    ∃ fields rest t0 a1,
      csvparse s = fields :: rest ∧
      parseFields { type := none, attrs := [] } fields = Except.ok t0 ∧
      kindRules s (t0.type.getD TagType.Raw) t0.attrs = Except.ok a1 ∧
      t = { type := some (t0.type.getD TagType.Raw),
            attrs := universalDefaults (t0.type.getD TagType.Raw) a1 } ∧
      ((getAttr a1 "enable").getD "true" = "true" ∨
        (getAttr a1 "enable").getD "true" = "false") := by
  unfold Parse at h
  cases hcsv : csvparse s with
  | nil => rw [hcsv] at h; exact Except.noConfusion h
  | cons fields rest =>
    rw [hcsv] at h
    dsimp only at h
    cases hpf : parseFields { type := none, attrs := [] } fields with
    | error e => rw [hpf] at h; exact Except.noConfusion h
    | ok t0 =>
      rw [hpf] at h
      dsimp only at h
      obtain ⟨a1, hk, ht, he⟩ := finishTag_eq_ok _ _ _ _ h
      exact ⟨fields, rest, t0, a1, rfl, hpf, hk, ht, he⟩

theorem Parse_ok_shape (s : String) (fields : List String) (rest : List (List String))
    (t0 : Tag) (hcsv : csvparse s = fields :: rest)
    (hpf : parseFields { type := none, attrs := [] } fields = Except.ok t0) :
    Parse s = finishTag s (t0.type.getD TagType.Raw) t0.attrs := by
  unfold Parse
  rw [hcsv]
  dsimp only
  rw [hpf]

/-! ## Claim theorems -/

/-- C5: `BuildSet` applied to the empty sequence of lines returns exactly
four rules, equal to the results of parsing `type=schedule`,
`type=ref,event=branch`, `type=ref,event=tag`, `type=ref,event=pr`, ordered
as the schedule rule (priority "1000") first and the three ref rules
(priority "600") in the order branch, tag, pr. -/
theorem c5_default_set :
    BuildSet [] =
      Except.ok
        [⟨some TagType.Schedule,
           [("pattern", "nightly"), ("enable", "true"), ("priority", "1000")]⟩,
         ⟨some TagType.Ref, [("event", "branch"), ("enable", "true"), ("priority", "600")]⟩,
         ⟨some TagType.Ref, [("event", "tag"), ("enable", "true"), ("priority", "600")]⟩,
         ⟨some TagType.Ref,
           [("event", "pr"), ("prefix", "pr-"), ("enable", "true"), ("priority", "600")]⟩] ∧
    Parse "type=schedule" =
      Except.ok ⟨some TagType.Schedule,
        [("pattern", "nightly"), ("enable", "true"), ("priority", "1000")]⟩ ∧
    Parse "type=ref,event=branch" =
      Except.ok ⟨some TagType.Ref,
        [("event", "branch"), ("enable", "true"), ("priority", "600")]⟩ ∧
    Parse "type=ref,event=tag" =
      Except.ok ⟨some TagType.Ref,
        [("event", "tag"), ("enable", "true"), ("priority", "600")]⟩ ∧
    Parse "type=ref,event=pr" =
      Except.ok ⟨some TagType.Ref,
        [("event", "pr"), ("prefix", "pr-"), ("enable", "true"), ("priority", "600")]⟩ := by
  decide

/-- C10: on the empty string, or on a line all of whose comma-separated
fields are blank, the CSV tokenizer yields no record; `Parse` neither
returns a rule nor fails with one of the descriptive errors of the error
taxonomy, but raises the raw runtime error. -/
theorem c10_empty_line_runtime :
    Parse "" = Except.error ParseErr.runtime ∧
    Parse "," = Except.error ParseErr.runtime ∧
    Parse " , ," = Except.error ParseErr.runtime ∧
    csvparse "" = [] ∧
    csvparse "," = [] ∧
    (∀ m : String, Parse "" ≠ Except.error (ParseErr.msg m)) ∧
    (∀ t : Tag, Parse "" ≠ Except.ok t) := by
  refine ⟨by decide, by decide, by decide, by decide, by decide, ?_, ?_⟩
  · intro m h
    rw [(by decide : Parse "" = Except.error ParseErr.runtime)] at h
    injection h with h2
    exact ParseErr.noConfusion h2
  · intro t h
    rw [(by decide : Parse "" = Except.error ParseErr.runtime)] at h
    exact Except.noConfusion h

/-- C1 counterexample: in `Parse "foo,bar=a=b"` the token `bar=a=b` contains
a later `=`; the stored attribute value is `"a"` (the component between the
first and second `=`), not the entire remainder `"a=b"` required by the
claim. -/
theorem c1_split_counterexample :
    Parse "foo,bar=a=b" =
      Except.ok ⟨some TagType.Raw,
        [("value", "foo"), ("bar", "a"), ("enable", "true"), ("priority", "200")]⟩ ∧
    getAttr [("value", "foo"), ("bar", "a"), ("enable", "true"), ("priority", "200")] "bar" =
      some "a" ∧
    some "a" ≠ some "a=b" := by
  decide

/-- C2 counterexample: `Parse "foo,priority=abc"` succeeds and its
`priority` attribute is the verbatim string `"abc"`, which does not parse as
a number (`Number("abc")` is NaN). -/
theorem c2_priority_counterexample :
    Parse "foo,priority=abc" =
      Except.ok ⟨some TagType.Raw,
        [("value", "foo"), ("priority", "abc"), ("enable", "true")]⟩ ∧
    jsNumber? "abc" = none := by
  decide

/-- C3 counterexample: the tokenizer keeps the empty trailing field of
`"foo,"` (the record has a non-blank field, so it is not skipped); the empty
token overwrites the positional `value`, and the parse differs from that of
`"foo"`. -/
theorem c3_empty_field_counterexample :
    csvparse "foo," = [["foo", ""]] ∧
    Parse "foo," =
      Except.ok ⟨some TagType.Raw, [("value", ""), ("enable", "true"), ("priority", "200")]⟩ ∧
    Parse "foo" =
      Except.ok ⟨some TagType.Raw, [("value", "foo"), ("enable", "true"), ("priority", "200")]⟩ ∧
    Parse "foo," ≠ Parse "foo" := by
  decide

/-- C7 counterexample: the line `type=semver,enable=maybe` supplies an
`enable` value outside {"true","false"}, yet `Parse` fails with the
missing-pattern error of the semver kind rules, not with the
invalid-enable error the claim requires. -/
theorem c7_enable_counterexample :
    Parse "type=semver,enable=maybe" =
      Except.error (ParseErr.msg "Missing pattern attribute for type=semver,enable=maybe") ∧
    ParseErr.msg "Missing pattern attribute for type=semver,enable=maybe" ≠
      ParseErr.msg "Invalid value for enable attribute: maybe" := by
  decide

/-- C9 counterexample: the ref line `type=ref,event=branch,enable=x` has a
present and valid event, yet `Parse` does not succeed: the universal
`enable` validation rejects it. -/
theorem c9_ref_counterexample :
    Parse "type=ref,event=branch,enable=x" =
      Except.error (ParseErr.msg "Invalid value for enable attribute: x") ∧
    (∀ t : Tag, Parse "type=ref,event=branch,enable=x" ≠ Except.ok t) := by
  refine ⟨by decide, fun t h => ?_⟩
  rw [(by decide : Parse "type=ref,event=branch,enable=x" =
    Except.error (ParseErr.msg "Invalid value for enable attribute: x"))] at h
  exact Except.noConfusion h

/-! ## Further helper lemmas for the general claims -/

theorem finishTag_error (s : String) (ty : TagType) (attrs0 : List (String × String))
    (e : ParseErr) (hk : kindRules s ty attrs0 = Except.error e) :
    finishTag s ty attrs0 = Except.error e := by
  unfold finishTag
  rw [hk]

theorem finishTag_enable_error (s : String) (ty : TagType)
    (attrs0 a1 : List (String × String)) (hk : kindRules s ty attrs0 = Except.ok a1)
    (h1 : (getAttr a1 "enable").getD "true" ≠ "true")
    (h2 : (getAttr a1 "enable").getD "true" ≠ "false") :
    finishTag s ty attrs0 =
      Except.error
        (ParseErr.msg
          ("Invalid value for enable attribute: " ++ (getAttr a1 "enable").getD "true")) := by
  have hx : (getAttr (universalDefaults ty a1) "enable").getD "" =
      (getAttr a1 "enable").getD "true" := by
    rw [universalDefaults_enable]
    rfl
  unfold finishTag
  rw [hk]
  dsimp only
  rw [hx, if_pos (by rw [includes_tf_false _ h1 h2]; decide)]

theorem hasAttr_false_of_none (m : List (String × String)) (k : String)
    (h : getAttr m k = none) : hasAttr m k = false := by
  rw [hasAttr_eq_isSome, h]
  rfl

theorem hasAttr_true_of_some (m : List (String × String)) (k v : String)
    (h : getAttr m k = some v) : hasAttr m k = true := by
  rw [hasAttr_eq_isSome, h]
  rfl

theorem kindRules_ref_event_none (s : String) (attrs : List (String × String))
    (h : getAttr attrs "event" = none) :
    kindRules s TagType.Ref attrs =
      Except.error (ParseErr.msg ("Missing event attribute for " ++ s)) := by
  simp only [kindRules]
  rw [hasAttr_false_of_none _ _ h]
  rfl

theorem kindRules_ref_event_invalid (s : String) (attrs : List (String × String)) (v : String)
    (h : getAttr attrs "event" = some v) (hinv : includes RefEventValues v = false) :
    kindRules s TagType.Ref attrs =
      Except.error (ParseErr.msg ("Invalid event for " ++ s)) := by
  simp only [kindRules]
  rw [hasAttr_true_of_some _ _ _ h, h]
  dsimp only [Option.getD_some]
  rw [hinv]
  rfl

theorem kindRules_ref_event_valid (s : String) (attrs : List (String × String)) (v : String)
    (h : getAttr attrs "event" = some v) (hval : includes RefEventValues v = true) :
    kindRules s TagType.Ref attrs =
      Except.ok
        (if v = "pr" && !hasAttr attrs "prefix" then setAttr attrs "prefix" "pr-"
         else attrs) := by
  simp only [kindRules]
  rw [hasAttr_true_of_some _ _ _ h, h]
  dsimp only [Option.getD_some]
  rw [hval]
  rfl

theorem kindRules_raw_missing (s : String) (attrs : List (String × String))
    (h : getAttr attrs "value" = none) :
    kindRules s TagType.Raw attrs =
      Except.error (ParseErr.msg ("Missing value attribute for " ++ s)) := by
  simp only [kindRules]
  rw [hasAttr_false_of_none _ _ h]
  rfl

theorem kindRules_raw_ok (s : String) (attrs : List (String × String)) (w : String)
    (h : getAttr attrs "value" = some w) :
    kindRules s TagType.Raw attrs = Except.ok attrs := by
  simp only [kindRules]
  rw [hasAttr_true_of_some _ _ _ h]
  rfl

theorem splitOnChar_ne_nil (c : Char) (cs : List Char) :
    ∃ g gs, splitOnChar c cs = g :: gs := by
  induction cs with
  | nil => exact ⟨[], [], rfl⟩
  | cons x xs ih =>
    obtain ⟨g, gs, hg⟩ := ih
    by_cases hx : x = c
    · exact ⟨[], splitOnChar c xs, by simp [splitOnChar, hx]⟩
    · exact ⟨x :: g, gs, by simp [splitOnChar, hx, hg]⟩

theorem splitOnChar_of_not_contains (c : Char) (cs : List Char)
    (h : cs.contains c = false) : splitOnChar c cs = [cs] := by
  induction cs with
  | nil => rfl
  | cons x xs ih =>
    simp only [List.contains_cons, Bool.or_eq_false_iff] at h
    have hx : ¬x = c := by
      intro hc
      subst hc
      simp at h
    rw [show splitOnChar c (x :: xs) = (x :: (splitOnChar c xs).head!) :: (splitOnChar c xs).tail
      from by simp [splitOnChar, hx]; cases hs : splitOnChar c xs with
        | nil => obtain ⟨g, gs, hg⟩ := splitOnChar_ne_nil c xs; rw [hg] at hs; exact List.noConfusion hs
        | cons g gs => rfl]
    rw [ih h.2]
    rfl

theorem splitOnChar_of_contains (c : Char) (cs : List Char)
    (h : cs.contains c = true) : ∃ a b rest, splitOnChar c cs = a :: b :: rest := by
  induction cs with
  | nil => exact absurd h (by simp)
  | cons x xs ih =>
    by_cases hx : x = c
    · obtain ⟨g, gs, hg⟩ := splitOnChar_ne_nil c xs
      exact ⟨[], g, gs, by simp [splitOnChar, hx, hg]⟩
    · simp only [List.contains_cons, Bool.or_eq_true] at h
      rcases h with h | h
      · exact absurd (id (by simpa using h : c = x)).symm hx
      · obtain ⟨a, b, rest, hab⟩ := ih h
        exact ⟨x :: a, b, rest, by simp [splitOnChar, hx, hab]⟩

theorem getLast?_append_singleton {α : Type} (l : List α) (a : α) :
    (l ++ [a]).getLast? = some a := by
  induction l with
  | nil => rfl
  | cons x xs ih => rw [List.cons_append, getLast?_cons_or, ih]; rfl

theorem append_ne_of_pre_cons (pre : List Char) (c1 c2 : Char) (r1 r2 : List Char)
    (hne : c1 ≠ c2) (lit1 lit2 a b : String)
    (h1 : lit1.data = pre ++ c1 :: r1) (h2 : lit2.data = pre ++ c2 :: r2) :
    lit1 ++ a ≠ lit2 ++ b := by
  intro h
  have hd := congrArg String.data h
  rw [String.data_append, String.data_append, h1, h2, List.append_assoc,
    List.append_assoc] at hd
  have hd2 := List.append_cancel_left hd
  rw [List.cons_append, List.cons_append] at hd2
  injection hd2 with hc _
  exact hne hc

/-- C2 (amended): after any successful parse the `priority` attribute is
present; when the line supplies no `priority` token its value is the
default-priority table entry for the resolved kind, which is numeric. A
user-supplied `priority` is stored verbatim, with no numeric validation
(see the counterexample). -/
theorem c2_priority_amended (s : String) (t : Tag) (h : Parse s = Except.ok t) :
    (getAttr t.attrs "priority").isSome = true ∧
    (lineSupplies s "priority" = false →
      getAttr t.attrs "priority" = some (DefaultPriorities (t.type.getD TagType.Raw)) ∧
      (jsNumber? (DefaultPriorities (t.type.getD TagType.Raw))).isSome = true) := by
  obtain ⟨fields, rest, t0, a1, hcsv, hpf, hk, ht, he⟩ := Parse_eq_ok s t h
  constructor
  · rw [ht]
    dsimp only
    rw [universalDefaults_priority]
    rfl
  · intro hsup
    unfold lineSupplies at hsup
    rw [hcsv] at hsup
    dsimp only at hsup
    have h0 : getAttr t0.attrs "priority" = none := by
      rw [parseFields_getAttr_init fields t0 "priority" hpf]
      cases hlw : lastWrite fields "priority"
      · rfl
      · rw [hlw] at hsup
        exact absurd hsup (by simp)
    have h1 : getAttr a1 "priority" = none := by
      rw [kindRules_getAttr_untouched _ _ _ _ _ hk (by decide) (by decide) (by decide)
        (by decide) (by decide) (by decide), h0]
    rw [ht]
    dsimp only
    rw [universalDefaults_priority, h1]
    refine ⟨rfl, ?_⟩
    cases t0.type.getD TagType.Raw <;> decide

/-- Witness for the amended C2 at the concrete line `"foo"`. -/
theorem c2_priority_amended_witness :
    (getAttr (⟨some TagType.Raw,
      [("value", "foo"), ("enable", "true"), ("priority", "200")]⟩ : Tag).attrs
        "priority").isSome = true ∧
    (lineSupplies "foo" "priority" = false →
      getAttr (⟨some TagType.Raw,
        [("value", "foo"), ("enable", "true"), ("priority", "200")]⟩ : Tag).attrs "priority" =
        some (DefaultPriorities ((⟨some TagType.Raw,
          [("value", "foo"), ("enable", "true"), ("priority", "200")]⟩ : Tag).type.getD
            TagType.Raw)) ∧
      (jsNumber? (DefaultPriorities ((⟨some TagType.Raw,
        [("value", "foo"), ("enable", "true"), ("priority", "200")]⟩ : Tag).type.getD
          TagType.Raw))).isSome = true) :=
  c2_priority_amended "foo"
    ⟨some TagType.Raw, [("value", "foo"), ("enable", "true"), ("priority", "200")]⟩
    (by decide)

/-- C7 (amended): after a successful parse `enable` is present and is
`"true"` or `"false"`, defaulting to `"true"` when the line supplies no
`enable` token; a line supplying an invalid `enable` value never parses
successfully, and when every earlier (kind-specific) validation passes the
failure is exactly the invalid-enable error. An earlier kind-rule failure
preempts that message (see the counterexample). -/
theorem c7_enable_amended :
    (∀ s t, Parse s = Except.ok t →
      getAttr t.attrs "enable" = some "true" ∨ getAttr t.attrs "enable" = some "false") ∧
    (∀ s t, Parse s = Except.ok t → lineSupplies s "enable" = false →
      getAttr t.attrs "enable" = some "true") ∧
    (∀ s fields rest t0 a1 v,
      csvparse s = fields :: rest →
      parseFields ⟨none, []⟩ fields = Except.ok t0 →
      kindRules s (t0.type.getD TagType.Raw) t0.attrs = Except.ok a1 →
      getAttr a1 "enable" = some v → v ≠ "true" → v ≠ "false" →
      Parse s = Except.error (ParseErr.msg ("Invalid value for enable attribute: " ++ v))) ∧
    (∀ s fields rest v,
      csvparse s = fields :: rest →
      lastWrite fields "enable" = some v → v ≠ "true" → v ≠ "false" →
      ∀ t, Parse s ≠ Except.ok t) := by
  refine ⟨?_, ?_, ?_, ?_⟩
  · intro s t h
    obtain ⟨fields, rest, t0, a1, hcsv, hpf, hk, ht, he⟩ := Parse_eq_ok s t h
    rw [ht]
    dsimp only
    rw [universalDefaults_enable]
    rcases he with he | he
    · exact Or.inl (by rw [he])
    · exact Or.inr (by rw [he])
  · intro s t h hsup
    obtain ⟨fields, rest, t0, a1, hcsv, hpf, hk, ht, he⟩ := Parse_eq_ok s t h
    unfold lineSupplies at hsup
    rw [hcsv] at hsup
    dsimp only at hsup
    have h0 : getAttr t0.attrs "enable" = none := by
      rw [parseFields_getAttr_init fields t0 "enable" hpf]
      cases hlw : lastWrite fields "enable"
      · rfl
      · rw [hlw] at hsup
        exact absurd hsup (by simp)
    have h1 : getAttr a1 "enable" = none := by
      rw [kindRules_getAttr_untouched _ _ _ _ _ hk (by decide) (by decide) (by decide)
        (by decide) (by decide) (by decide), h0]
    rw [ht]
    dsimp only
    rw [universalDefaults_enable, h1]
    rfl
  · intro s fields rest t0 a1 v hcsv hpf hk hv hv1 hv2
    have hgd : (getAttr a1 "enable").getD "true" = v := by rw [hv]; rfl
    rw [Parse_ok_shape s fields rest t0 hcsv hpf,
      finishTag_enable_error s _ _ a1 hk (by rw [hgd]; exact hv1) (by rw [hgd]; exact hv2),
      hgd]
  · intro s fields rest v hcsv hlw hv1 hv2 t h
    obtain ⟨fields2, rest2, t0, a1, hcsv2, hpf, hk, ht, he⟩ := Parse_eq_ok s t h
    rw [hcsv] at hcsv2
    injection hcsv2 with hf hr
    subst hf
    have h0 : getAttr t0.attrs "enable" = some v := by
      rw [parseFields_getAttr_init fields t0 "enable" hpf, hlw]
    have h1 : getAttr a1 "enable" = some v :=
      kindRules_getAttr_of_present _ _ _ _ _ _ hk h0
    rw [h1] at he
    dsimp only [Option.getD_some] at he
    rcases he with he | he
    · exact hv1 he
    · exact hv2 he

/-- Witness for the amended C7: parts instantiated at the lines `"foo"` and
`"foo,enable=maybe"`. -/
theorem c7_enable_amended_witness :
    (getAttr (⟨some TagType.Raw,
        [("value", "foo"), ("enable", "true"), ("priority", "200")]⟩ : Tag).attrs "enable" =
          some "true" ∨
      getAttr (⟨some TagType.Raw,
        [("value", "foo"), ("enable", "true"), ("priority", "200")]⟩ : Tag).attrs "enable" =
          some "false") ∧
    getAttr (⟨some TagType.Raw,
      [("value", "foo"), ("enable", "true"), ("priority", "200")]⟩ : Tag).attrs "enable" =
        some "true" ∧
    Parse "foo,enable=maybe" =
      Except.error (ParseErr.msg ("Invalid value for enable attribute: " ++ "maybe")) ∧
    Parse "foo,enable=maybe" ≠ Except.ok ⟨none, []⟩ := by
  refine ⟨?_, ?_, ?_, ?_⟩
  · exact c7_enable_amended.1 "foo"
      ⟨some TagType.Raw, [("value", "foo"), ("enable", "true"), ("priority", "200")]⟩
      (by decide)
  · exact c7_enable_amended.2.1 "foo"
      ⟨some TagType.Raw, [("value", "foo"), ("enable", "true"), ("priority", "200")]⟩
      (by decide) (by decide)
  · exact c7_enable_amended.2.2.1 "foo,enable=maybe" ["foo", "enable=maybe"] []
      ⟨none, [("value", "foo"), ("enable", "maybe")]⟩
      [("value", "foo"), ("enable", "maybe")] "maybe"
      (by decide) (by decide) (by decide) (by decide) (by decide) (by decide)
  · exact c7_enable_amended.2.2.2 "foo,enable=maybe" ["foo", "enable=maybe"] [] "maybe"
      (by decide) (by decide) (by decide) (by decide) ⟨none, []⟩

theorem missing_event_ne_invalid_event (a b : String) :
    "Missing event attribute for " ++ a ≠ "Invalid event for " ++ b :=
  append_ne_of_pre_cons [] 'M' 'I' "issing event attribute for ".data
    "nvalid event for ".data (by decide) _ _ a b rfl rfl

theorem missing_event_ne_invalid_enable (a b : String) :
    "Missing event attribute for " ++ a ≠ "Invalid value for enable attribute: " ++ b :=
  append_ne_of_pre_cons [] 'M' 'I' "issing event attribute for ".data
    "nvalid value for enable attribute: ".data (by decide) _ _ a b rfl rfl

theorem invalid_event_ne_invalid_enable (a b : String) :
    "Invalid event for " ++ a ≠ "Invalid value for enable attribute: " ++ b :=
  append_ne_of_pre_cons "Invalid ".data 'e' 'v' "vent for ".data
    "alue for enable attribute: ".data (by decide) _ _ a b rfl rfl

/-- C9 (amended): for a line whose kind resolves to `ref`, `Parse` fails
with the missing-event error exactly when no `event` attribute is present,
fails with the invalid-event error exactly when the supplied event is not
one of branch, tag, pr, and with a valid event it succeeds provided the
universal `enable` validation passes (an invalid `enable` still aborts the
parse — see the counterexample); when the event is `"pr"` and no prefix
attribute was supplied the returned rule has prefix `"pr-"`. -/
theorem c9_ref_amended :
    ∀ s fields rest t0,
      csvparse s = fields :: rest →
      parseFields ⟨none, []⟩ fields = Except.ok t0 →
      t0.type = some TagType.Ref →
      ((getAttr t0.attrs "event" = none ↔
        Parse s = Except.error (ParseErr.msg ("Missing event attribute for " ++ s))) ∧
      (∀ v, getAttr t0.attrs "event" = some v →
        (includes RefEventValues v = false ↔
          Parse s = Except.error (ParseErr.msg ("Invalid event for " ++ s)))) ∧
      (∀ v, getAttr t0.attrs "event" = some v → includes RefEventValues v = true →
        ((getAttr t0.attrs "enable").getD "true" = "true" ∨
          (getAttr t0.attrs "enable").getD "true" = "false") →
        ∃ t, Parse s = Except.ok t ∧ t.type = some TagType.Ref ∧
          (v = "pr" → getAttr t0.attrs "prefix" = none →
            getAttr t.attrs "prefix" = some "pr-"))) := by
  intro s fields rest t0 hcsv hpf hty
  have hshape : Parse s = finishTag s TagType.Ref t0.attrs := by
    rw [Parse_ok_shape s fields rest t0 hcsv hpf, hty]
    rfl
  have hen : ∀ v, (getAttr
      (if v = "pr" && !hasAttr t0.attrs "prefix" then setAttr t0.attrs "prefix" "pr-"
       else t0.attrs) "enable") = getAttr t0.attrs "enable" := by
    intro v
    split
    · exact getAttr_setAttr_ne _ _ _ _ (by decide)
    · rfl
  have hval_case : ∀ v, getAttr t0.attrs "event" = some v → includes RefEventValues v = true →
      (∃ t, Parse s = Except.ok t) ∨
      (∃ w, Parse s =
        Except.error (ParseErr.msg ("Invalid value for enable attribute: " ++ w))) := by
    intro v hev hval
    have hk := kindRules_ref_event_valid s t0.attrs v hev hval
    by_cases hok : (getAttr
        (if v = "pr" && !hasAttr t0.attrs "prefix" then setAttr t0.attrs "prefix" "pr-"
         else t0.attrs) "enable").getD "true" = "true" ∨
        (getAttr
        (if v = "pr" && !hasAttr t0.attrs "prefix" then setAttr t0.attrs "prefix" "pr-"
         else t0.attrs) "enable").getD "true" = "false"
    · exact Or.inl ⟨_, by rw [hshape, finishTag_ok s _ _ _ hk hok]⟩
    · push_neg at hok
      exact Or.inr ⟨_, by rw [hshape, finishTag_enable_error s _ _ _ hk hok.1 hok.2]⟩
  refine ⟨⟨?_, ?_⟩, ?_, ?_⟩
  · intro he
    rw [hshape, finishTag_error _ _ _ _ (kindRules_ref_event_none s t0.attrs he)]
  · intro hpe
    cases hev : getAttr t0.attrs "event" with
    | none => rfl
    | some v =>
      exfalso
      by_cases hval : includes RefEventValues v = true
      · rcases hval_case v hev hval with ⟨t, hok⟩ | ⟨w, herr⟩
        · exact Except.noConfusion (hok.symm.trans hpe)
        · have heq := herr.symm.trans hpe
          injection heq with h1
          injection h1 with h2
          exact missing_event_ne_invalid_enable s w h2.symm
      · have hinv := kindRules_ref_event_invalid s t0.attrs v hev (by
          revert hval
          cases includes RefEventValues v <;> simp)
        rw [hshape, finishTag_error _ _ _ _ hinv] at hpe
        injection hpe with h1
        injection h1 with h2
        exact missing_event_ne_invalid_event s s h2.symm
  · intro v hev
    constructor
    · intro hinv
      rw [hshape, finishTag_error _ _ _ _ (kindRules_ref_event_invalid s t0.attrs v hev hinv)]
    · intro hpe
      by_cases hval : includes RefEventValues v = true
      · exfalso
        rcases hval_case v hev hval with ⟨t, hok⟩ | ⟨w, herr⟩
        · exact Except.noConfusion (hok.symm.trans hpe)
        · have heq := herr.symm.trans hpe
          injection heq with h1
          injection h1 with h2
          exact invalid_event_ne_invalid_enable s w h2.symm
      · revert hval
        cases includes RefEventValues v <;> simp
  · intro v hev hval henable
    have hk := kindRules_ref_event_valid s t0.attrs v hev hval
    have hok : (getAttr
        (if v = "pr" && !hasAttr t0.attrs "prefix" then setAttr t0.attrs "prefix" "pr-"
         else t0.attrs) "enable").getD "true" = "true" ∨
        (getAttr
        (if v = "pr" && !hasAttr t0.attrs "prefix" then setAttr t0.attrs "prefix" "pr-"
         else t0.attrs) "enable").getD "true" = "false" := by
      rw [hen v]
      exact henable
    refine ⟨_, by rw [hshape, finishTag_ok s _ _ _ hk hok], rfl, ?_⟩
    intro hpr hnopre
    have hcond : (v = "pr" && !hasAttr t0.attrs "prefix") = true := by
      rw [hpr, hasAttr_false_of_none _ _ hnopre]
      decide
    show getAttr (universalDefaults TagType.Ref
      (if v = "pr" && !hasAttr t0.attrs "prefix" then setAttr t0.attrs "prefix" "pr-"
       else t0.attrs)) "prefix" = some "pr-"
    rw [universalDefaults_getAttr_ne _ _ (by decide) (by decide), hcond, if_pos rfl,
      getAttr_setAttr_self]

/-- Witness for the amended C9 at the concrete line `type=ref,event=pr`. -/
theorem c9_ref_amended_witness :
    (getAttr (⟨some TagType.Ref, [("event", "pr")]⟩ : Tag).attrs "event" = none ↔
      Parse "type=ref,event=pr" =
        Except.error
          (ParseErr.msg ("Missing event attribute for " ++ "type=ref,event=pr"))) ∧
    (∃ t, Parse "type=ref,event=pr" = Except.ok t ∧ t.type = some TagType.Ref ∧
      ("pr" = "pr" →
        getAttr (⟨some TagType.Ref, [("event", "pr")]⟩ : Tag).attrs "prefix" = none →
        getAttr t.attrs "prefix" = some "pr-")) :=
  ⟨(c9_ref_amended "type=ref,event=pr" ["type=ref", "event=pr"] []
      ⟨some TagType.Ref, [("event", "pr")]⟩ (by decide) (by decide) (by decide)).1,
   (c9_ref_amended "type=ref,event=pr" ["type=ref", "event=pr"] []
      ⟨some TagType.Ref, [("event", "pr")]⟩ (by decide) (by decide) (by decide)).2.2
     "pr" (by decide) (by decide) (Or.inl (by decide))⟩

theorem jsSplitEq2_single (f : String) (h : f.toList.contains '=' = false) :
    jsSplitEq2 f = [f] := by
  unfold jsSplitEq2
  rw [splitOnChar_of_not_contains '=' f.toList h]
  rfl

theorem isTypeToken_false_of_no_eq (f : String) (h : f.toList.contains '=' = false) :
    isTypeToken f = false := by
  unfold isTypeToken
  rw [jsSplitEq2_single f h]

theorem writeOf_of_single (f k : String) (h : f.toList.contains '=' = false) :
    writeOf f k = if k = "value" then some (jsTrim f) else none := by
  unfold writeOf
  rw [jsSplitEq2_single f h]

theorem lastWrite_eq_none (fields : List String) (k : String)
    (h : ∀ f ∈ fields, writeOf f k = none) : lastWrite fields k = none := by
  unfold lastWrite
  rw [List.filterMap_eq_nil_iff.2 h]
  rfl

/-- C8: a line with no `type=` token resolves to kind `raw`; a raw rule with
no `value` attribute fails with the missing-value error; a line that is a
single token without `=` succeeds with kind `raw` and the token (trimmed) as
`value`; and among several tokens without `=` the last one wins. -/
theorem c8_raw_default :
    (∀ s fields rest t,
      csvparse s = fields :: rest → (∀ f ∈ fields, isTypeToken f = false) →
      Parse s = Except.ok t → t.type = some TagType.Raw) ∧
    (∀ s fields rest t0,
      csvparse s = fields :: rest →
      parseFields ⟨none, []⟩ fields = Except.ok t0 →
      t0.type.getD TagType.Raw = TagType.Raw →
      getAttr t0.attrs "value" = none →
      Parse s = Except.error (ParseErr.msg ("Missing value attribute for " ++ s))) ∧
    (∀ s w rest,
      csvparse s = [w] :: rest → w.toList.contains '=' = false →
      ∃ t, Parse s = Except.ok t ∧ t.type = some TagType.Raw ∧
        getAttr t.attrs "value" = some (jsTrim w) ∧
        getAttr t.attrs "enable" = some "true" ∧
        getAttr t.attrs "priority" = some "200") ∧
    (∀ s fields rest v,
      csvparse s = fields :: rest →
      (∀ f ∈ fields, f.toList.contains '=' = false) →
      lastWrite fields "value" = some v →
      ∃ t, Parse s = Except.ok t ∧ t.type = some TagType.Raw ∧
        getAttr t.attrs "value" = some v) := by
  have main : ∀ s fields rest v,
      csvparse s = fields :: rest →
      (∀ f ∈ fields, f.toList.contains '=' = false) →
      lastWrite fields "value" = some v →
      ∃ t, Parse s = Except.ok t ∧ t.type = some TagType.Raw ∧
        getAttr t.attrs "value" = some v ∧
        getAttr t.attrs "enable" = some "true" ∧
        getAttr t.attrs "priority" = some "200" := by
    intro s fields rest v hcsv hnoeq hlw
    obtain ⟨t0, hpf, htype⟩ := parseFields_ok_of_no_type fields ⟨none, []⟩
      (fun f hf => isTypeToken_false_of_no_eq f (hnoeq f hf))
    have hval : getAttr t0.attrs "value" = some v := by
      rw [parseFields_getAttr_init fields t0 "value" hpf, hlw]
    have hen : getAttr t0.attrs "enable" = none := by
      rw [parseFields_getAttr_init fields t0 "enable" hpf,
        lastWrite_eq_none fields "enable" (fun f hf => by
          rw [writeOf_of_single f "enable" (hnoeq f hf)]
          rfl)]
    have hpr : getAttr t0.attrs "priority" = none := by
      rw [parseFields_getAttr_init fields t0 "priority" hpf,
        lastWrite_eq_none fields "priority" (fun f hf => by
          rw [writeOf_of_single f "priority" (hnoeq f hf)]
          rfl)]
    have hty : t0.type.getD TagType.Raw = TagType.Raw := by
      rw [htype]
      rfl
    have hk : kindRules s TagType.Raw t0.attrs = Except.ok t0.attrs :=
      kindRules_raw_ok s t0.attrs v hval
    have hshape : Parse s = finishTag s TagType.Raw t0.attrs := by
      rw [Parse_ok_shape s fields rest t0 hcsv hpf, hty]
    refine ⟨_, by rw [hshape, finishTag_ok s _ _ _ hk (Or.inl (by rw [hen]; rfl))],
      rfl, ?_, ?_, ?_⟩
    · show getAttr (universalDefaults TagType.Raw t0.attrs) "value" = some v
      rw [universalDefaults_getAttr_ne _ _ (by decide) (by decide), hval]
    · show getAttr (universalDefaults TagType.Raw t0.attrs) "enable" = some "true"
      rw [universalDefaults_enable, hen]
      rfl
    · show getAttr (universalDefaults TagType.Raw t0.attrs) "priority" = some "200"
      rw [universalDefaults_priority, hpr]
      rfl
  refine ⟨?_, ?_, ?_, ?_⟩
  · intro s fields rest t hcsv hnt h
    obtain ⟨fields2, rest2, t0, a1, hcsv2, hpf, hk, ht, he⟩ := Parse_eq_ok s t h
    rw [hcsv] at hcsv2
    injection hcsv2 with hf hr
    subst hf
    obtain ⟨t0', hpf', htype'⟩ := parseFields_ok_of_no_type fields ⟨none, []⟩ hnt
    have ht0 : t0' = t0 := by
      have := hpf'.symm.trans hpf
      injection this
    rw [ht]
    dsimp only
    rw [show t0.type = none from by rw [← ht0]; exact htype']
    rfl
  · intro s fields rest t0 hcsv hpf hty hval
    rw [Parse_ok_shape s fields rest t0 hcsv hpf, hty,
      finishTag_error _ _ _ _ (kindRules_raw_missing s t0.attrs hval)]
  · intro s w rest hcsv hne
    have hlw : lastWrite [w] "value" = some (jsTrim w) := by
      unfold lastWrite
      rw [List.filterMap_cons]
      rw [writeOf_of_single w "value" hne]
      rfl
    obtain ⟨t, h1, h2, h3, h4, h5⟩ := main s [w] rest (jsTrim w) hcsv
      (fun f hf => by rw [List.mem_singleton] at hf; rw [hf]; exact hne) hlw
    exact ⟨t, h1, h2, h3, h4, h5⟩
  · intro s fields rest v hcsv hnoeq hlw
    obtain ⟨t, h1, h2, h3, _, _⟩ := main s fields rest v hcsv hnoeq hlw
    exact ⟨t, h1, h2, h3⟩

/-- Witness for C8: the parts instantiated at the lines `"foo"`,
`"type=raw"` and `"foo,bar"`. -/
theorem c8_raw_default_witness :
    ((⟨some TagType.Raw, [("value", "foo"), ("enable", "true"), ("priority", "200")]⟩ :
        Tag).type = some TagType.Raw) ∧
    Parse "type=raw" =
      Except.error (ParseErr.msg ("Missing value attribute for " ++ "type=raw")) ∧
    (∃ t, Parse "foo" = Except.ok t ∧ t.type = some TagType.Raw ∧
      getAttr t.attrs "value" = some (jsTrim "foo") ∧
      getAttr t.attrs "enable" = some "true" ∧
      getAttr t.attrs "priority" = some "200") ∧
    (∃ t, Parse "foo,bar" = Except.ok t ∧ t.type = some TagType.Raw ∧
      getAttr t.attrs "value" = some "bar") := by
  refine ⟨?_, ?_, ?_, ?_⟩
  · exact c8_raw_default.1 "foo" ["foo"] []
      ⟨some TagType.Raw, [("value", "foo"), ("enable", "true"), ("priority", "200")]⟩
      (by decide) (by decide) (by decide)
  · exact c8_raw_default.2.1 "type=raw" ["type=raw"] [] ⟨some TagType.Raw, []⟩
      (by decide) (by decide) (by decide) (by decide)
  · exact c8_raw_default.2.2.1 "foo" "foo" [] (by decide) (by decide)
  · exact c8_raw_default.2.2.2 "foo,bar" ["foo", "bar"] [] "bar"
      (by decide) (by decide) (by decide)

/-- C1 (amended): a token containing `=` is processed with the key equal to
the text before the first `=` (trimmed and lower-cased) and the value equal
to the text strictly between the first and the second `=` (up to the end of
the token when there is no second `=`), trimmed; any text from the second
`=` on is discarded by the `split('=', 2)` limit. Stated for non-`type`
keys, which are stored into the attribute record. -/
theorem c1_split_amended (tag : Tag) (field : String)
    (hcont : field.toList.contains '=' = true)
    (hkey : jsToLower (jsTrim (⟨(splitOnChar '=' field.toList).headD []⟩ : String)) ≠
      "type") :
    processField tag field =
      Except.ok ⟨tag.type,
        setAttr tag.attrs
          (jsToLower (jsTrim (⟨(splitOnChar '=' field.toList).headD []⟩ : String)))
          (jsTrim (⟨((splitOnChar '=' field.toList).drop 1).headD []⟩ : String))⟩ := by
  obtain ⟨a, b, rest, hab⟩ := splitOnChar_of_contains '=' field.toList hcont
  have hsp : jsSplitEq2 field = [(⟨a⟩ : String), (⟨b⟩ : String)] := by
    unfold jsSplitEq2
    rw [hab]
    rfl
  rw [hab] at hkey ⊢
  dsimp only [List.headD, List.drop] at hkey ⊢
  unfold processField
  rw [hsp]
  dsimp only
  rw [if_neg hkey]

/-- Witness for the amended C1 at the concrete token `bar=a=b`. -/
theorem c1_split_amended_witness :
    processField ⟨none, []⟩ "bar=a=b" =
      Except.ok ⟨(⟨none, []⟩ : Tag).type,
        setAttr (⟨none, []⟩ : Tag).attrs
          (jsToLower (jsTrim (⟨(splitOnChar '=' "bar=a=b".toList).headD []⟩ : String)))
          (jsTrim (⟨((splitOnChar '=' "bar=a=b".toList).drop 1).headD []⟩ : String))⟩ :=
  c1_split_amended ⟨none, []⟩ "bar=a=b" (by decide) (by decide)

/-- C3 (amended): the tokenizer keeps empty fields whenever the record has
at least one non-blank field (only an all-blank record is skipped), so a
trailing empty segment becomes a token that overwrites the positional
`value` attribute with the empty string. -/
theorem c3_empty_field_amended (s : String) (fields : List String)
    (rest : List (List String)) (t : Tag)
    (hcsv : csvparse s = (fields ++ [""]) :: rest)
    (h : Parse s = Except.ok t) :
    getAttr t.attrs "value" = some "" := by
  obtain ⟨fields2, rest2, t0, a1, hcsv2, hpf, hk, ht, he⟩ := Parse_eq_ok s t h
  rw [hcsv] at hcsv2
  injection hcsv2 with hf hr
  subst hf
  have hlw : lastWrite (fields ++ [""]) "value" = some "" := by
    unfold lastWrite
    rw [List.filterMap_append,
      (by decide : List.filterMap (fun f => writeOf f "value") [""] = [""])]
    exact getLast?_append_singleton _ _
  have h0 : getAttr t0.attrs "value" = some "" := by
    rw [parseFields_getAttr_init _ _ _ hpf, hlw]
  have h1 : getAttr a1 "value" = some "" :=
    kindRules_getAttr_of_present _ _ _ _ _ _ hk h0
  rw [ht]
  dsimp only
  rw [universalDefaults_getAttr_ne _ _ (by decide) (by decide), h1]

/-- Witness for the amended C3 at the concrete line `"foo,"`. -/
theorem c3_empty_field_amended_witness :
    getAttr (⟨some TagType.Raw,
      [("value", ""), ("enable", "true"), ("priority", "200")]⟩ : Tag).attrs "value" =
      some "" :=
  c3_empty_field_amended "foo," ["foo"] []
    ⟨some TagType.Raw, [("value", ""), ("enable", "true"), ("priority", "200")]⟩
    (by decide) (by decide)

theorem parseAll_first_error :
    ∀ (ls : List String) (i : Nat) (hi : i < ls.length) (e : ParseErr),
      Parse (ls.get ⟨i, hi⟩) = Except.error e →
      (∀ j (hj : j < i), ∃ t, Parse (ls.get ⟨j, Nat.lt_trans hj hi⟩) = Except.ok t) →
      parseAll ls = Except.error e := by
  intro ls
  induction ls with
  | nil => intro i hi; exact absurd hi (by simp)
  | cons x xs ih =>
    intro i hi e hfail hbefore
    cases i with
    | zero =>
      unfold parseAll
      rw [show Parse ((x :: xs).get ⟨0, hi⟩) = Parse x from rfl] at hfail
      rw [hfail]
    | succ i2 =>
      obtain ⟨t, hx⟩ := hbefore 0 (Nat.succ_pos i2)
      rw [show ((x :: xs).get ⟨0, Nat.lt_trans (Nat.succ_pos i2) hi⟩) = x from rfl] at hx
      unfold parseAll
      rw [hx]
      dsimp only
      have hi2 : i2 < xs.length := Nat.lt_of_succ_lt_succ hi
      rw [ih i2 hi2 e hfail (fun j hj => hbefore (j + 1) (Nat.succ_lt_succ hj))]

/-- C6: when some line fails to parse, `BuildSet` fails with exactly the
error of the first failing line (in input order) and produces no rule
sequence at all. -/
theorem c6_first_error (ls : List String) (i : Nat) (hi : i < ls.length) (e : ParseErr)
    (hfail : Parse (ls.get ⟨i, hi⟩) = Except.error e)
    (hbefore : ∀ j (hj : j < i), ∃ t, Parse (ls.get ⟨j, Nat.lt_trans hj hi⟩) = Except.ok t) :
    BuildSet ls = Except.error e ∧ ∀ out, BuildSet ls ≠ Except.ok out := by
  have hne : ¬(ls.length = 0) := by
    intro hc
    rw [hc] at hi
    exact absurd hi (by simp)
  have hmain : BuildSet ls = Except.error e := by
    unfold BuildSet Transform
    rw [if_neg hne, parseAll_first_error ls i hi e hfail hbefore]
  exact ⟨hmain, fun out hc => Except.noConfusion (hmain.symm.trans hc)⟩

/-- Witness for C6: the second line of
`["type=schedule", "type=bogus", "type=alsobad"]` is the first failing one. -/
theorem c6_first_error_witness :
    BuildSet ["type=schedule", "type=bogus", "type=alsobad"] =
      Except.error (ParseErr.msg "Unknown tag type attribute: bogus") ∧
    ∀ out, BuildSet ["type=schedule", "type=bogus", "type=alsobad"] ≠ Except.ok out :=
  c6_first_error ["type=schedule", "type=bogus", "type=alsobad"] 1 (by decide)
    (ParseErr.msg "Unknown tag type attribute: bogus") (by decide)
    (fun j hj => by
      cases j with
      | zero =>
        refine ⟨⟨some TagType.Schedule,
          [("pattern", "nightly"), ("enable", "true"), ("priority", "1000")]⟩, ?_⟩
        show Parse (["type=schedule", "type=bogus", "type=alsobad"].get ⟨0, by decide⟩) =
          Except.ok ⟨some TagType.Schedule,
            [("pattern", "nightly"), ("enable", "true"), ("priority", "1000")]⟩
        decide
      | succ n => exact absurd hj (by omega))

/-! ## The stable priority sort (claim C4) -/

theorem tagCmp_le_zero (a b : Tag) (ha : (tagPrio a).isSome = true)
    (hb : (tagPrio b).isSome = true) :
    (tagCmp a b ≤ 0) ↔ (tagPrio b).getD 0 ≤ (tagPrio a).getD 0 := by
  obtain ⟨x, hx⟩ := Option.isSome_iff_exists.1 ha
  obtain ⟨y, hy⟩ := Option.isSome_iff_exists.1 hb
  unfold tagCmp
  rw [hx, hy]
  dsimp only [Option.getD_some]
  have hxy : jsLtOpt (some x) (some y) = decide (x < y) := rfl
  have hyx : jsLtOpt (some y) (some x) = decide (y < x) := rfl
  rw [hxy, hyx]
  rcases lt_trichotomy x y with h | h | h
  · rw [if_pos (decide_eq_true h)]
    constructor
    · intro h1
      exact absurd h1 (by decide)
    · intro h1
      exact absurd h (not_lt.2 h1)
  · subst h
    rw [if_neg (by simp), if_neg (by simp)]
    exact iff_of_true (by decide) le_rfl
  · rw [if_neg (by simp [not_lt.2 (le_of_lt h)]), if_pos (decide_eq_true h)]
    exact iff_of_true (by decide) (le_of_lt h)

theorem sortInsert_perm (x : Tag) (l : List Tag) : List.Perm (sortInsert x l) (x :: l) := by
  induction l with
  | nil => exact List.Perm.refl _
  | cons y ys ih =>
    unfold sortInsert
    by_cases h : tagCmp y x ≤ 0
    · rw [if_pos h]
      exact (ih.cons y).trans (List.Perm.swap x y ys)
    · rw [if_neg h]

theorem foldl_sortInsert_perm :
    ∀ (l acc : List Tag), List.Perm (l.foldl (fun a x => sortInsert x a) acc) (l ++ acc) := by
  intro l
  induction l with
  | nil => intro acc; simp
  | cons x xs ih =>
    intro acc
    rw [List.foldl_cons]
    exact ((ih (sortInsert x acc)).trans
      (List.Perm.append_left xs (sortInsert_perm x acc))).trans List.perm_middle

theorem jsSort_perm (l : List Tag) : List.Perm (jsSort l) l := by
  unfold jsSort
  simpa using foldl_sortInsert_perm l []

theorem sortInsert_pairwise (x : Tag) (l : List Tag)
    (hx : (tagPrio x).isSome = true) (hl : ∀ y ∈ l, (tagPrio y).isSome = true)
    (hs : l.Pairwise (fun a b => (tagPrio b).getD 0 ≤ (tagPrio a).getD 0)) :
    (sortInsert x l).Pairwise (fun a b => (tagPrio b).getD 0 ≤ (tagPrio a).getD 0) := by
  induction l with
  | nil => simp [sortInsert]
  | cons y ys ih =>
    rw [List.pairwise_cons] at hs
    obtain ⟨hy, hys⟩ := hs
    have hyn : (tagPrio y).isSome = true := hl y (by simp)
    unfold sortInsert
    by_cases hc : tagCmp y x ≤ 0
    · rw [if_pos hc]
      rw [List.pairwise_cons]
      refine ⟨?_, ih (fun z hz => hl z (by simp [hz])) hys⟩
      intro z hz
      rcases List.mem_cons.1 ((sortInsert_perm x ys).mem_iff.1 hz) with rfl | hz2
      · exact (tagCmp_le_zero y z hyn hx).1 hc
      · exact hy z hz2
    · rw [if_neg hc]
      have hlt : (tagPrio y).getD 0 < (tagPrio x).getD 0 :=
        lt_of_not_le (fun hle => hc ((tagCmp_le_zero y x hyn hx).2 hle))
      rw [List.pairwise_cons]
      refine ⟨?_, List.Pairwise.cons hy hys⟩
      intro z hz
      rcases List.mem_cons.1 hz with rfl | hz2
      · exact le_of_lt hlt
      · exact le_trans (hy z hz2) (le_of_lt hlt)

theorem foldl_sortInsert_pairwise :
    ∀ (l acc : List Tag),
      (∀ t ∈ l, (tagPrio t).isSome = true) → (∀ t ∈ acc, (tagPrio t).isSome = true) →
      acc.Pairwise (fun a b => (tagPrio b).getD 0 ≤ (tagPrio a).getD 0) →
      (l.foldl (fun a x => sortInsert x a) acc).Pairwise
        (fun a b => (tagPrio b).getD 0 ≤ (tagPrio a).getD 0) := by
  intro l
  induction l with
  | nil => intro acc _ hacc hs; simpa
  | cons x xs ih =>
    intro acc hl hacc hs
    rw [List.foldl_cons]
    refine ih (sortInsert x acc) (fun t ht => hl t (by simp [ht])) ?_ ?_
    · intro t ht
      rcases List.mem_cons.1 ((sortInsert_perm x acc).mem_iff.1 ht) with rfl | ht2
      · exact hl t (by simp)
      · exact hacc t ht2
    · exact sortInsert_pairwise x acc (hl x (by simp)) hacc hs

theorem jsSort_pairwise (l : List Tag) (hl : ∀ t ∈ l, (tagPrio t).isSome = true) :
    (jsSort l).Pairwise (fun a b => (tagPrio b).getD 0 ≤ (tagPrio a).getD 0) := by
  unfold jsSort
  exact foldl_sortInsert_pairwise l [] hl (by simp) (by simp)

theorem sortInsert_filter_pos (x : Tag) (l : List Tag) (q : Rat)
    (hq : tagPrio x = some q)
    (hl : ∀ y ∈ l, (tagPrio y).isSome = true)
    (hs : l.Pairwise (fun a b => (tagPrio b).getD 0 ≤ (tagPrio a).getD 0)) :
    (sortInsert x l).filter (fun t => decide (tagPrio t = some q)) =
      l.filter (fun t => decide (tagPrio t = some q)) ++ [x] := by
  induction l with
  | nil => simp [sortInsert, List.filter, hq]
  | cons y ys ih =>
    rw [List.pairwise_cons] at hs
    obtain ⟨hy, hys⟩ := hs
    have hyn : (tagPrio y).isSome = true := hl y (by simp)
    unfold sortInsert
    by_cases hc : tagCmp y x ≤ 0
    · rw [if_pos hc]
      rw [List.filter_cons, List.filter_cons]
      by_cases hpy : tagPrio y = some q
      · simp only [hpy, decide_eq_true_eq, eq_self_iff_true, if_true]
        rw [ih (fun z hz => hl z (by simp [hz])) hys]
        rfl
      · simp only [decide_eq_true_eq, hpy, if_false]
        exact ih (fun z hz => hl z (by simp [hz])) hys
    · rw [if_neg hc]
      have hx : (tagPrio x).isSome = true := by rw [hq]; rfl
      have hlt : (tagPrio y).getD 0 < (tagPrio x).getD 0 :=
        lt_of_not_le (fun hle => hc ((tagCmp_le_zero y x hyn hx).2 hle))
      have hnil : (y :: ys).filter (fun t => decide (tagPrio t = some q)) = [] := by
        rw [List.filter_eq_nil_iff]
        intro z hz
        simp only [decide_eq_true_eq]
        intro hpz
        have hzy : (tagPrio z).getD 0 ≤ (tagPrio y).getD 0 := by
          rcases List.mem_cons.1 hz with rfl | hz2
          · exact le_rfl
          · exact hy z hz2
        rw [hpz] at hzy
        rw [hq] at hlt
        dsimp only [Option.getD_some] at hzy hlt
        exact absurd (lt_of_le_of_lt hzy hlt) (lt_irrefl q)
      rw [List.filter_cons, hnil]
      simp only [hq, decide_eq_true_eq, eq_self_iff_true, if_true]
      rfl

theorem sortInsert_filter_neg (x : Tag) (l : List Tag) (q : Rat)
    (hq : ¬(tagPrio x = some q)) :
    (sortInsert x l).filter (fun t => decide (tagPrio t = some q)) =
      l.filter (fun t => decide (tagPrio t = some q)) := by
  induction l with
  | nil => simp [sortInsert, List.filter, hq]
  | cons y ys ih =>
    unfold sortInsert
    by_cases hc : tagCmp y x ≤ 0
    · rw [if_pos hc]
      rw [List.filter_cons, List.filter_cons, ih]
    · rw [if_neg hc]
      rw [List.filter_cons]
      simp only [decide_eq_true_eq, hq, if_false]

theorem foldl_sortInsert_filter :
    ∀ (l acc : List Tag) (q : Rat),
      (∀ t ∈ l, (tagPrio t).isSome = true) → (∀ t ∈ acc, (tagPrio t).isSome = true) →
      acc.Pairwise (fun a b => (tagPrio b).getD 0 ≤ (tagPrio a).getD 0) →
      (l.foldl (fun a x => sortInsert x a) acc).filter
          (fun t => decide (tagPrio t = some q)) =
        acc.filter (fun t => decide (tagPrio t = some q)) ++
          l.filter (fun t => decide (tagPrio t = some q)) := by
  intro l
  induction l with
  | nil => intro acc q _ _ _; simp
  | cons x xs ih =>
    intro acc q hl hacc hs
    rw [List.foldl_cons]
    have hacc2 : ∀ t ∈ sortInsert x acc, (tagPrio t).isSome = true := by
      intro t ht
      rcases List.mem_cons.1 ((sortInsert_perm x acc).mem_iff.1 ht) with rfl | ht2
      · exact hl t (by simp)
      · exact hacc t ht2
    rw [ih (sortInsert x acc) q (fun t ht => hl t (by simp [ht])) hacc2
      (sortInsert_pairwise x acc (hl x (by simp)) hacc hs)]
    by_cases hpx : tagPrio x = some q
    · rw [sortInsert_filter_pos x acc q hpx hacc hs, List.filter_cons]
      simp only [hpx, decide_eq_true_eq, eq_self_iff_true, if_true, List.append_assoc]
      rfl
    · rw [sortInsert_filter_neg x acc q hpx, List.filter_cons]
      simp only [decide_eq_true_eq, hpx, if_false]

theorem jsSort_filter (l : List Tag) (q : Rat)
    (hl : ∀ t ∈ l, (tagPrio t).isSome = true) :
    (jsSort l).filter (fun t => decide (tagPrio t = some q)) =
      l.filter (fun t => decide (tagPrio t = some q)) := by
  unfold jsSort
  rw [foldl_sortInsert_filter l [] q hl (by simp) (by simp)]
  rfl

/-- C4: when every rule parsed from the (defaulted) input list has a numeric
priority, the output of `BuildSet` is ordered by non-increasing numeric
priority — so any two rules with distinct priorities appear in strictly
descending order — and for every priority value the subsequence of output
rules with that numeric priority equals the corresponding subsequence of the
parsed input rules: the sort is stable, preserving input order among equal
priorities. -/
theorem c4_sort_stable (ls : List String) (parsed out : List Tag)
    (hp : parseAll (if ls.length = 0 then DefaultInputs else ls) = Except.ok parsed)
    (hout : BuildSet ls = Except.ok out)
    (hnum : ∀ t ∈ parsed, (tagPrio t).isSome = true) :
    out.Pairwise (fun a b => (tagPrio b).getD 0 ≤ (tagPrio a).getD 0) ∧
    ∀ q : Rat, out.filter (fun t => decide (tagPrio t = some q)) =
      parsed.filter (fun t => decide (tagPrio t = some q)) := by
  have hout2 : out = jsSort parsed := by
    unfold BuildSet Transform at hout
    rw [hp] at hout
    dsimp only at hout
    injection hout with hh
    exact hh.symm
  constructor
  · rw [hout2]
    exact jsSort_pairwise parsed hnum
  · intro q
    rw [hout2]
    exact jsSort_filter parsed q hnum

/-- Witness for C4 at the lines `a,priority=5`, `b,priority=9`,
`c,priority=5`: rules with priority 5 keep their input order below the
priority-9 rule. -/
theorem c4_sort_stable_witness :
    ([⟨some TagType.Raw, [("value", "b"), ("priority", "9"), ("enable", "true")]⟩,
      ⟨some TagType.Raw, [("value", "a"), ("priority", "5"), ("enable", "true")]⟩,
      ⟨some TagType.Raw, [("value", "c"), ("priority", "5"), ("enable", "true")]⟩] :
        List Tag).Pairwise (fun a b => (tagPrio b).getD 0 ≤ (tagPrio a).getD 0) ∧
    ([⟨some TagType.Raw, [("value", "b"), ("priority", "9"), ("enable", "true")]⟩,
      ⟨some TagType.Raw, [("value", "a"), ("priority", "5"), ("enable", "true")]⟩,
      ⟨some TagType.Raw, [("value", "c"), ("priority", "5"), ("enable", "true")]⟩] :
        List Tag).filter (fun t => decide (tagPrio t = some 5)) =
      ([⟨some TagType.Raw, [("value", "a"), ("priority", "5"), ("enable", "true")]⟩,
        ⟨some TagType.Raw, [("value", "b"), ("priority", "9"), ("enable", "true")]⟩,
        ⟨some TagType.Raw, [("value", "c"), ("priority", "5"), ("enable", "true")]⟩] :
          List Tag).filter (fun t => decide (tagPrio t = some 5)) :=
  ⟨(c4_sort_stable ["a,priority=5", "b,priority=9", "c,priority=5"]
      [⟨some TagType.Raw, [("value", "a"), ("priority", "5"), ("enable", "true")]⟩,
       ⟨some TagType.Raw, [("value", "b"), ("priority", "9"), ("enable", "true")]⟩,
       ⟨some TagType.Raw, [("value", "c"), ("priority", "5"), ("enable", "true")]⟩]
      [⟨some TagType.Raw, [("value", "b"), ("priority", "9"), ("enable", "true")]⟩,
       ⟨some TagType.Raw, [("value", "a"), ("priority", "5"), ("enable", "true")]⟩,
       ⟨some TagType.Raw, [("value", "c"), ("priority", "5"), ("enable", "true")]⟩]
      (by decide) (by decide) (by decide)).1,
   (c4_sort_stable ["a,priority=5", "b,priority=9", "c,priority=5"]
      [⟨some TagType.Raw, [("value", "a"), ("priority", "5"), ("enable", "true")]⟩,
       ⟨some TagType.Raw, [("value", "b"), ("priority", "9"), ("enable", "true")]⟩,
       ⟨some TagType.Raw, [("value", "c"), ("priority", "5"), ("enable", "true")]⟩]
      [⟨some TagType.Raw, [("value", "b"), ("priority", "9"), ("enable", "true")]⟩,
       ⟨some TagType.Raw, [("value", "a"), ("priority", "5"), ("enable", "true")]⟩,
       ⟨some TagType.Raw, [("value", "c"), ("priority", "5"), ("enable", "true")]⟩]
      (by decide) (by decide) (by decide)).2 5⟩
